import Mathlib

/-!
Verification of the ecdsa-scanner repository against its specification.

Shallow embedding of the Go sources:
* scalar arithmetic over the secp256k1 group order (internal/recovery/recovery.go),
* the recovery primitives RecoverFromSignatures, DeriveNonce, VerifyPrivateKey,
* the in-memory mock persistence layer (internal/db/mock.go) and the SQL
  semantics of the live adapter (internal/db/db.go),
* the scanner's block filtering (scanner.scanBlock) and the pending-component
  re-evaluation hook (scanner.checkPendingComponents),
* the retry classifier (retry.IsRetryable),
* a linear-system solver modelled from the specification (its implementation
  is not part of the source tree; only its tests and callers are).

Go big.Int.Mod is Euclidean (non-negative) modulus; big.Int.ModInverse returns
nil exactly when the operand is not coprime to the modulus.  Both are embedded
below with Nat/Int arithmetic and explicit reductions.
-/

namespace EcdsaScanner

/-- The secp256k1 group order n, as declared in internal/recovery/recovery.go
(variable secp256k1N). -/
def secpN : Nat := 0xFFFFFFFFFFFFFFFFFFFFFFFFFFFFFFFEBAAEDCE6AF48A03BBFD25E8CD0364141

instance : NeZero secpN := ⟨by decide⟩

theorem one_lt_secpN : 1 < secpN := by decide

/-- Go big.Int.Mod with a positive modulus: Euclidean remainder, always in
[0, m). -/
def goMod (x : Int) (m : Nat) : Nat := (x % (m : Int)).toNat

/-- One step of the extended Euclidean algorithm, with explicit fuel so that
the definition is structurally recursive and kernel-evaluable.  The state
(r0, r1, s0, s1, t0, t1) maintains s_i * a + t_i * b = r_i. -/
def egcdAux : Nat → Nat → Nat → Int → Int → Int → Int → Nat × Int × Int
  | 0, r0, _, s0, _, t0, _ => (r0, s0, t0)
  | fuel + 1, r0, r1, s0, s1, t0, t1 =>
    if r1 = 0 then (r0, s0, t0)
    else
      egcdAux fuel r1 (r0 % r1)
        s1 (s0 - ((r0 / r1 : Nat) : Int) * s1)
        t1 (t0 - ((r0 / r1 : Nat) : Int) * t1)

/-- Extended gcd of a and b: returns (g, s, t) with s * a + t * b = g and,
for the fuel chosen here, g = gcd a b. -/
def egcd (a b : Nat) : Nat × Int × Int := egcdAux (b + 1) a b 1 0 0 1

/-- Embedding of Go big.Int.ModInverse(g, n) for non-negative g and positive
n: the inverse of g modulo n when g and n are coprime, and none (Go: nil)
otherwise. -/
def modInverse (g n : Nat) : Option Nat :=
  if (egcd g n).1 = 1 then some (((egcd g n).2.1 % (n : Int)).toNat) else none

theorem egcdAux_zero_fuel (r0 r1 : Nat) (s0 s1 t0 t1 : Int) :
    egcdAux 0 r0 r1 s0 s1 t0 t1 = (r0, s0, t0) := rfl

theorem egcdAux_stop (fuel r0 : Nat) (s0 s1 t0 t1 : Int) :
    egcdAux (fuel + 1) r0 0 s0 s1 t0 t1 = (r0, s0, t0) := by
  rw [egcdAux]
  simp

theorem egcdAux_step (fuel r0 r1 : Nat) (s0 s1 t0 t1 : Int) (hr : r1 ≠ 0) :
    egcdAux (fuel + 1) r0 r1 s0 s1 t0 t1
      = egcdAux fuel r1 (r0 % r1)
          s1 (s0 - ((r0 / r1 : Nat) : Int) * s1)
          t1 (t0 - ((r0 / r1 : Nat) : Int) * t1) := by
  rw [egcdAux]
  simp [hr]

theorem egcdAux_bezout (a b : Nat) : ∀ (fuel r0 r1 : Nat) (s0 s1 t0 t1 : Int),
    s0 * a + t0 * b = (r0 : Int) → s1 * a + t1 * b = (r1 : Int) →
    (egcdAux fuel r0 r1 s0 s1 t0 t1).2.1 * a + (egcdAux fuel r0 r1 s0 s1 t0 t1).2.2 * b
      = ((egcdAux fuel r0 r1 s0 s1 t0 t1).1 : Int) := by
  intro fuel
  induction fuel with
  | zero => intro r0 r1 s0 s1 t0 t1 h0 _; simpa [egcdAux_zero_fuel] using h0
  | succ fuel ih =>
    intro r0 r1 s0 s1 t0 t1 h0 h1
    by_cases hr : r1 = 0
    · subst hr
      simpa [egcdAux_stop] using h0
    · have hnext : (s0 - ((r0 / r1 : Nat) : Int) * s1) * a
          + (t0 - ((r0 / r1 : Nat) : Int) * t1) * b = ((r0 % r1 : Nat) : Int) := by
        have hmod : ((r0 % r1 : Nat) : Int) = (r0 : Int) - ((r0 / r1 : Nat) : Int) * r1 := by
          have hmd : ((r0 % r1 : Nat) : Int) + ((r0 / r1 : Nat) : Int) * (r1 : Int) = (r0 : Int) := by
            exact_mod_cast Nat.mod_add_div' r0 r1
          linarith [hmd]
        rw [hmod, ← h0, ← h1]
        ring
      rw [egcdAux_step fuel r0 r1 s0 s1 t0 t1 hr]
      exact ih r1 (r0 % r1) s1 _ t1 _ h1 hnext

theorem egcdAux_gcd : ∀ (fuel r0 r1 : Nat) (s0 s1 t0 t1 : Int), r1 ≤ fuel →
    (egcdAux fuel r0 r1 s0 s1 t0 t1).1 = Nat.gcd r0 r1 := by
  intro fuel
  induction fuel with
  | zero =>
    intro r0 r1 s0 s1 t0 t1 h
    have h0 : r1 = 0 := Nat.le_zero.mp h
    subst h0
    simp [egcdAux_zero_fuel]
  | succ fuel ih =>
    intro r0 r1 s0 s1 t0 t1 h
    by_cases hr : r1 = 0
    · subst hr
      simp [egcdAux_stop]
    · have hlt : r0 % r1 < r1 := Nat.mod_lt _ (Nat.pos_of_ne_zero hr)
      have hle : r0 % r1 ≤ fuel := by omega
      have hrec := ih r1 (r0 % r1) s1 (s0 - ((r0 / r1 : Nat) : Int) * s1)
        t1 (t0 - ((r0 / r1 : Nat) : Int) * t1) hle
      rw [egcdAux_step fuel r0 r1 s0 s1 t0 t1 hr, hrec,
        Nat.gcd_comm r1 (r0 % r1), ← Nat.gcd_rec r1 r0, Nat.gcd_comm]

theorem egcd_bezout (a b : Nat) :
    (egcd a b).2.1 * a + (egcd a b).2.2 * b = ((egcd a b).1 : Int) := by
  have := egcdAux_bezout a b (b + 1) a b 1 0 0 1 (by ring) (by ring)
  simpa [egcd] using this

theorem egcd_gcd (a b : Nat) : (egcd a b).1 = Nat.gcd a b := by
  exact egcdAux_gcd (b + 1) a b 1 0 0 1 (Nat.le_succ b)

theorem modInverse_spec {g n v : Nat} (hn : 1 < n) (h : modInverse g n = some v) :
    (g * v) % n = 1 ∧ v < n := by
  have hnpos : (0 : Int) < (n : Int) := by exact_mod_cast Nat.lt_of_lt_of_le Nat.zero_lt_one hn.le
  by_cases hg : (egcd g n).1 = 1
  case neg => simp [modInverse, hg] at h
  rw [modInverse, if_pos hg] at h
  have hv : (v : Int) = (egcd g n).2.1 % n := by
    rw [← Option.some_inj.mp h]
    exact Int.toNat_of_nonneg (Int.emod_nonneg _ (by omega))
  set s := (egcd g n).2.1 with hs
  set t := (egcd g n).2.2 with ht
  have hbez : s * g + t * n = 1 := by
    have hb := egcd_bezout g n
    rw [hg] at hb
    exact_mod_cast hb
  constructor
  · have hmod : ((g * v : Nat) : Int) % n = 1 % n := by
      have hsplit : (s : Int) % n = s - n * (s / n) := Int.emod_def s n
      have hgv : ((g * v : Nat) : Int) = 1 + n * (-t - g * (s / n)) := by
        push_cast
        rw [hv, hsplit]
        have hgs : (g : Int) * s = 1 - t * n := by linarith [hbez]
        ring_nf
        ring_nf at hgs
        linarith [hgs]
      rw [hgv, Int.add_mul_emod_self_left]
    have h1n : (1 : Int) % n = 1 := Int.emod_eq_of_lt (by omega) (by exact_mod_cast hn)
    rw [h1n] at hmod
    omega
  · have hvn : (v : Int) < n := by
      rw [hv]
      exact Int.emod_lt_of_pos s hnpos
    exact_mod_cast hvn

theorem modInverse_isSome {g n : Nat} (h : Nat.Coprime g n) :
    ∃ v, modInverse g n = some v := by
  refine ⟨((egcd g n).2.1 % (n : Int)).toNat, ?_⟩
  have hg : (egcd g n).1 = 1 := by rw [egcd_gcd]; exact h
  rw [modInverse, if_pos hg]

theorem goMod_lt (x : Int) {n : Nat} (hn : 0 < n) : goMod x n < n := by
  have h1 : x % (n : Int) < n := Int.emod_lt_of_pos x (by exact_mod_cast hn)
  have h2 : 0 ≤ x % (n : Int) := Int.emod_nonneg x (by omega)
  unfold goMod
  omega

theorem natCast_mod_secpN (a : Nat) :
    ((a % secpN : Nat) : ZMod secpN) = (a : ZMod secpN) := by
  conv_rhs => rw [← Nat.div_add_mod a secpN]
  push_cast
  rw [ZMod.natCast_self]
  ring

theorem goMod_cast (x : Int) :
    ((goMod x secpN : Nat) : ZMod secpN) = ((x : Int) : ZMod secpN) := by
  have h0 : (0 : Int) < (secpN : Int) := by
    have : 0 < secpN := by decide
    exact_mod_cast this
  have h1 : ((goMod x secpN : Nat) : Int) = x % (secpN : Int) :=
    Int.toNat_of_nonneg (Int.emod_nonneg x (by omega))
  have h2 : ((goMod x secpN : Nat) : ZMod secpN)
      = (((goMod x secpN : Nat) : Int) : ZMod secpN) := by push_cast; rfl
  rw [h2, h1, Int.emod_def x (secpN : Int)]
  push_cast
  rw [ZMod.natCast_self]
  ring

theorem natCast_secpN_inj {a b : Nat} (ha : a < secpN) (hb : b < secpN)
    (h : (a : ZMod secpN) = (b : ZMod secpN)) : a = b := by
  have := congrArg ZMod.val h
  rwa [ZMod.val_cast_of_lt ha, ZMod.val_cast_of_lt hb] at this

/-!  Recovery primitives (internal/recovery/recovery.go).

The Go functions return the recovered scalar as 0x-prefixed 32-byte hex; that
rendering is injective on scalars, so the embedding returns the scalar itself.
crypto.ToECDSA accepts a 32-byte value d exactly when 0 < d < n; this is the
validity test modelled below. -/

/-- One attempt of the loop in RecoverFromSignatures (recovery.go:45-76) for a
given candidate nonce k: computes d = (s1*k - z1) * r^(-1) mod n, applies the
d.Sign() <= 0 adjustment, and accepts the scalar iff crypto.ToECDSA would. -/
def recoverAttempt (z1 s1 r1 k : Nat) : Option Nat :=
  match modInverse r1 secpN with
  | none => none
  | some rInv =>
    let d0 := goMod (((s1 : Int) * k - z1) * rInv) secpN
    let d1 := if d0 = 0 then d0 + secpN else d0
    if 0 < d1 ∧ d1 < secpN then some d1 else none

/-- RecoverFromSignatures (recovery.go:21-79): same-key private-key recovery
from two signatures sharing an R value.  Computes
k = (z1 - z2) * (s1 - s2)^(-1) mod n and tries the candidate nonces k and
n - k in order, returning the first valid scalar. -/
def recoverFromSignatures (z1 r1 s1 z2 r2 s2 : Nat) : Option Nat :=
  if r1 ≠ r2 then none
  else if s1 = s2 then none
  else
    match modInverse (goMod ((s1 : Int) - s2) secpN) secpN with
    | none => none
    | some sDiffInv =>
      let k := (goMod ((z1 : Int) - z2) secpN * sDiffInv) % secpN
      match recoverAttempt z1 s1 r1 k with
      | some d => some d
      | none => recoverAttempt z1 s1 r1 (secpN - k)

/-- DeriveNonce (recovery.go:119-136): k = (r*d + z) * s^(-1) mod n.  The Go
code does not test ModInverse for nil and would crash on a non-invertible s;
that branch is modelled as none. -/
def deriveNonce (z r s d : Nat) : Option Nat :=
  match modInverse s secpN with
  | none => none
  | some sInv => some (((r * d + z) * sInv) % secpN)

theorem secpN_pos : 0 < secpN := by decide

/-- Cast a hypothesis of the form (a*b) % n = (c) % n into ZMod. -/
theorem zmodOfModEq {a b c : Nat} (h : (a * b) % secpN = c % secpN) :
    (a : ZMod secpN) * b = (c : ZMod secpN) := by
  have hc := congrArg (fun x : Nat => (x : ZMod secpN)) h
  simp only [natCast_mod_secpN] at hc
  push_cast at hc
  exact hc

/-- Claim C2: for every private key d in (0, n) and nonce k < n, if s1 and s2
are the ECDSA signature values of two message hashes z1, z2 under (d, k) with
shared R value r (signing relation s_i * k = z_i + r*d mod n), where r is
invertible and s1 - s2 is invertible mod n (for the prime order n this is
exactly z1 and z2 distinct mod n, which forces s1 differs from s2), then
RecoverFromSignatures returns exactly the private key d.  Since the returned
scalar is d itself, VerifyPrivateKey of the result against the address of d
succeeds, and the operation does not fail: the first branch (candidate
nonce k) already yields the verifying key. -/
theorem recoverFromSignatures_recovers
    (d k r z1 z2 s1 s2 : Nat)
    (hd0 : 0 < d) (hdN : d < secpN) (hkN : k < secpN)
    (hr : Nat.Coprime r secpN)
    (hs1 : (s1 * k) % secpN = (z1 + r * d) % secpN)
    (hs2 : (s2 * k) % secpN = (z2 + r * d) % secpN)
    (hsd : Nat.Coprime (goMod ((s1 : Int) - s2) secpN) secpN) :
    recoverFromSignatures z1 r s1 z2 r s2 = some d := by
  have hne : s1 ≠ s2 := by
    intro he
    subst he
    simp only [sub_self] at hsd
    have h0 : goMod (0 : Int) secpN = 0 := rfl
    rw [h0] at hsd
    have : secpN = 1 := (Nat.coprime_zero_left secpN).mp hsd
    exact absurd this (by decide)
  obtain ⟨sInv, hsInv⟩ := modInverse_isSome hsd
  obtain ⟨hsInvSpec, hsInvLt⟩ := modInverse_spec one_lt_secpN hsInv
  obtain ⟨rInv, hrInv⟩ := modInverse_isSome hr
  obtain ⟨hrInvSpec, hrInvLt⟩ := modInverse_spec one_lt_secpN hrInv
  have h1mod : (1 : Nat) % secpN = 1 := Nat.mod_eq_of_lt one_lt_secpN
  -- signing relations in ZMod
  have e1 : (s1 : ZMod secpN) * k = (z1 : ZMod secpN) + r * d := by
    have h := zmodOfModEq hs1; push_cast at h ⊢; exact h
  have e2 : (s2 : ZMod secpN) * k = (z2 : ZMod secpN) + r * d := by
    have h := zmodOfModEq hs2; push_cast at h ⊢; exact h
  -- inverse facts in ZMod
  have hsu : ((goMod ((s1 : Int) - s2) secpN : Nat) : ZMod secpN) * sInv = 1 := by
    have h := zmodOfModEq (hsInvSpec.trans h1mod.symm)
    simpa using h
  have hru : (r : ZMod secpN) * rInv = 1 := by
    have h := zmodOfModEq (hrInvSpec.trans h1mod.symm)
    simpa using h
  have hsdiff : ((goMod ((s1 : Int) - s2) secpN : Nat) : ZMod secpN)
      = (s1 : ZMod secpN) - s2 := by
    rw [goMod_cast]; push_cast; ring
  have hzdiff : ((goMod ((z1 : Int) - z2) secpN : Nat) : ZMod secpN)
      = (z1 : ZMod secpN) - z2 := by
    rw [goMod_cast]; push_cast; ring
  -- subtracting the signing relations
  have hdk : ((s1 : ZMod secpN) - s2) * k = (z1 : ZMod secpN) - z2 := by
    linear_combination e1 - e2
  -- the computed candidate nonce equals k
  have hkcCast : (((goMod ((z1 : Int) - z2) secpN * sInv) % secpN : Nat) : ZMod secpN)
      = (k : ZMod secpN) := by
    rw [natCast_mod_secpN]
    push_cast
    rw [hzdiff, ← hdk]
    calc ((s1 : ZMod secpN) - s2) * k * sInv
        = (k : ZMod secpN) * (((s1 : ZMod secpN) - s2) * sInv) := by ring
      _ = k := by rw [← hsdiff, hsu, mul_one]
  have hkceq : (goMod ((z1 : Int) - z2) secpN * sInv) % secpN = k :=
    natCast_secpN_inj (Nat.mod_lt _ secpN_pos) hkN hkcCast
  -- the first attempt yields exactly d
  have hkey : goMod (((s1 : Int) * k - z1) * rInv) secpN = d := by
    apply natCast_secpN_inj (goMod_lt _ secpN_pos) hdN
    rw [goMod_cast]
    push_cast
    calc ((s1 : ZMod secpN) * k - z1) * rInv
        = (((z1 : ZMod secpN) + r * d) - z1) * rInv := by rw [e1]
      _ = (d : ZMod secpN) * ((r : ZMod secpN) * rInv) := by ring
      _ = d := by rw [hru, mul_one]
  have hAtt : recoverAttempt z1 s1 r k = some d := by
    simp only [recoverAttempt, hrInv, hkey]
    have hdne : ¬ d = 0 := Nat.pos_iff_ne_zero.mp hd0
    simp [hdne, hd0, hdN]
  simp only [recoverFromSignatures, if_neg (fun h : r ≠ r => h rfl), if_neg hne,
    hsInv, hkceq, hAtt]

/-- Witness for recoverFromSignatures_recovers: the private key d = 5 signed
hashes z1 = 11 and z2 = 13 with nonce k = 3 and R value r = 7; the two
signature scalars satisfy the signing relation, and recovery returns 5. -/
theorem recoverFromSignatures_recovers_witness :
    (0 : Nat) < 5 ∧
    recoverFromSignatures 11 7
      77194726158210796949047323339125271901891709519383269588403442094345440996240
      13 7 16 = some 5 := by
  refine ⟨by decide, recoverFromSignatures_recovers 5 3 7 11 13
    77194726158210796949047323339125271901891709519383269588403442094345440996240
    16 (by decide) (by decide) (by decide) ?_ (by decide) (by decide) ?_⟩
  · norm_num [Nat.Coprime, secpN]
  · show Nat.Coprime
      77194726158210796949047323339125271901891709519383269588403442094345440996224 secpN
    norm_num [Nat.Coprime, secpN]

/-- Claim C7: for any private key d and nonce k < n and message hash z, if
(r, s) satisfies the ECDSA signing relation s * k = z + r*d mod n with s
invertible (always true for honest secp256k1 signatures, whose s is a nonzero
scalar mod the prime n), then DeriveNonce returns exactly the nonce k. -/
theorem deriveNonce_correct
    (d k z r s : Nat) (hkN : k < secpN)
    (hsC : Nat.Coprime s secpN)
    (hs : (s * k) % secpN = (z + r * d) % secpN) :
    deriveNonce z r s d = some k := by
  obtain ⟨sInv, hsInv⟩ := modInverse_isSome hsC
  obtain ⟨hsInvSpec, hsInvLt⟩ := modInverse_spec one_lt_secpN hsInv
  have h1mod : (1 : Nat) % secpN = 1 := Nat.mod_eq_of_lt one_lt_secpN
  have hsu : (s : ZMod secpN) * sInv = 1 := by
    have h := zmodOfModEq (hsInvSpec.trans h1mod.symm)
    simpa using h
  have e1 : (s : ZMod secpN) * k = (z : ZMod secpN) + r * d := by
    have h := zmodOfModEq hs; push_cast at h ⊢; exact h
  have hkey : ((r * d + z) * sInv) % secpN = k := by
    apply natCast_secpN_inj (Nat.mod_lt _ secpN_pos) hkN
    rw [natCast_mod_secpN]
    push_cast
    calc ((r : ZMod secpN) * d + z) * sInv
        = ((s : ZMod secpN) * k) * sInv := by rw [e1]; ring
      _ = (k : ZMod secpN) * ((s : ZMod secpN) * sInv) := by ring
      _ = k := by rw [hsu, mul_one]
  simp only [deriveNonce, hsInv, hkey]

/-- Witness for deriveNonce_correct: the signature of z = 11 under key d = 5
with nonce k = 3 and R value r = 7 yields back the nonce 3. -/
theorem deriveNonce_correct_witness :
    (3 : Nat) < secpN ∧
    deriveNonce 11 7
      77194726158210796949047323339125271901891709519383269588403442094345440996240
      5 = some 3 := by
  refine ⟨by decide, deriveNonce_correct 5 3 11 7
    77194726158210796949047323339125271901891709519383269588403442094345440996240
    (by decide) ?_ (by decide)⟩
  norm_num [Nat.Coprime, secpN]

/-!  String helpers modelling the Go standard library functions used by the
scanner: strings.Contains, strings.EqualFold (on the ASCII data handled
here), strings.TrimPrefix and hex.DecodeString. -/

/-- Leading-run test on character lists: the first list starts the second. -/
def charsLead : List Char → List Char → Bool
  | [], _ => true
  | _ :: _, [] => false
  | a :: as, b :: bs => a == b && charsLead as bs

/-- strings.Contains: pat occurs as a contiguous run inside the list. -/
def charsContains (pat : List Char) : List Char → Bool
  | [] => charsLead pat []
  | c :: t => charsLead pat (c :: t) || charsContains pat t

def strContains (hay pat : String) : Bool := charsContains pat.data hay.data

/-- ASCII lower-casing of one character (the data handled by this code path
is ASCII hex and addresses). -/
def lowerChar (c : Char) : Char :=
  if 65 ≤ c.toNat ∧ c.toNat ≤ 90 then Char.ofNat (c.toNat + 32) else c

/-- strings.ToLower on the ASCII strings handled by this code path. -/
def strLower (s : String) : String := ⟨s.data.map lowerChar⟩

/-- strings.EqualFold on the ASCII strings handled by this code path. -/
def eqFold (a b : String) : Bool := strLower a == strLower b

/-!  Persistence layer: data types shared by internal/db/db.go and
internal/db/mock.go, the in-memory MockDB, and its batch insert.  Go maps
are modelled as association lists (the mock only ever adds or updates
entries, so representation order is immaterial to the stated theorems). -/

/-- TxRef (db.go:24-27). -/
structure TxRef where
  txHash : String
  chainID : Nat
deriving DecidableEq

/-- TxInput: one batch entry (r, tx_hash, chain_id, sender) as built by
scanner.scanBlock. -/
structure TxInput where
  rValue : String
  txHash : String
  chainID : Nat
  address : String
deriving DecidableEq

/-- CollisionResult: one collision reported by BatchCheckAndInsertRValues. -/
structure CollisionResult where
  rValue : String
  txHash : String
  chainID : Nat
  address : String
  firstTxRef : TxRef
deriving DecidableEq

/-- RecoveredKey (db.go:36-45). -/
structure RecoveredKey where
  id : Nat
  address : String
  privateKey : String
  chainID : Nat
  chainName : String
  rValues : List String
  txHashes : List String
  createdAt : String
deriving DecidableEq

/-- RecoveredNonce (db.go:48-52). -/
structure RecoveredNonce where
  rValue : String
  kValue : String
  derivedFromKeyID : Nat
deriving DecidableEq

/-- PendingComponent (db.go:55-63). -/
structure PendingComponent where
  id : Nat
  rValues : List String
  txHashes : List String
  addresses : List String
  chainIDs : List Nat
  equations : Nat
  unknowns : Nat
deriving DecidableEq

/-- The R-value index: map r -> first (tx_hash, chain_id), modelled as an
association list with exact string keys (Go map semantics). -/
abbrev RTable := List (String × TxRef)

def lookupR : RTable → String → Option TxRef
  | [], _ => none
  | (r', ref) :: rest, r => if r' = r then some ref else lookupR rest r

/-- MockDB state (mock.go:10-17). -/
structure MockDB where
  rValues : RTable
  keys : List RecoveredKey
  nonces : List (String × RecoveredNonce)
  comps : List PendingComponent
  blocks : List (Nat × Nat)
deriving DecidableEq

/-- NewMock (mock.go:20-26): all tables empty. -/
def NewMock : MockDB := ⟨[], [], [], [], []⟩

/-- The loop body of MockDB.BatchCheckAndInsertRValues (mock.go:112-143):
walks the batch keeping a seen set of R values; the first occurrence of each
R either records a collision (if the R is already indexed under a
case-insensitively different tx hash) or inserts the witness; repeat
occurrences within the batch are skipped. -/
def batchAux (tbl : RTable) (seen : List String) (cols : List CollisionResult) :
    List TxInput → RTable × List CollisionResult
  | [] => (tbl, cols)
  | tx :: rest =>
    if tx.rValue ∈ seen then batchAux tbl seen cols rest
    else
      match lookupR tbl tx.rValue with
      | some existing =>
        if eqFold existing.txHash tx.txHash then
          batchAux tbl (tx.rValue :: seen) cols rest
        else
          batchAux tbl (tx.rValue :: seen)
            (cols ++ [⟨tx.rValue, tx.txHash, tx.chainID, tx.address, existing⟩]) rest
      | none =>
        batchAux (tbl ++ [(tx.rValue, ⟨tx.txHash, tx.chainID⟩)]) (tx.rValue :: seen) cols rest

/-- MockDB.BatchCheckAndInsertRValues (mock.go:112-143). -/
def MockDB.batchCheckAndInsertRValues (m : MockDB) (txs : List TxInput) :
    MockDB × List CollisionResult :=
  ({ m with rValues := (batchAux m.rValues [] [] txs).1 }, (batchAux m.rValues [] [] txs).2)

/-- MockDB.CheckAndInsertRValue (mock.go:97-106) and the equivalent
SELECT-then-INSERT-ON-CONFLICT-DO-NOTHING of DB.CheckAndInsertRValue
(db.go:242-270): returns (existing witness, collision flag) and inserts only
if the R value is new. -/
def checkAndInsertRValue (tbl : RTable) (rValue txHash : String) (chainID : Nat) :
    (Option TxRef × Bool) × RTable :=
  match lookupR tbl rValue with
  | some existing => ((some existing, true), tbl)
  | none => ((none, false), tbl ++ [(rValue, ⟨txHash, chainID⟩)])

/-- A sequence of batch calls against the mock, collecting all collisions. -/
def runBatches (m : MockDB) : List (List TxInput) → MockDB × List CollisionResult
  | [] => (m, [])
  | b :: bs =>
    ((runBatches (m.batchCheckAndInsertRValues b).1 bs).1,
      (m.batchCheckAndInsertRValues b).2 ++ (runBatches (m.batchCheckAndInsertRValues b).1 bs).2)

/-- First occurrence of each R value in a batch, relative to an already-seen
set: the entries of the batch that actually participate in the mock's insert
and collision logic. -/
def firstOccsFrom (seen : List String) : List TxInput → List TxInput
  | [] => []
  | tx :: rest =>
    if tx.rValue ∈ seen then firstOccsFrom seen rest
    else tx :: firstOccsFrom (tx.rValue :: seen) rest

/-- The collision (if any) that a first-in-batch entry produces against a
fixed pre-batch index. -/
def colOf (tbl : RTable) (tx : TxInput) : Option CollisionResult :=
  match lookupR tbl tx.rValue with
  | some w =>
    if eqFold w.txHash tx.txHash then none
    else some ⟨tx.rValue, tx.txHash, tx.chainID, tx.address, w⟩
  | none => none

theorem lookupR_append_some {t1 : RTable} (t2 : RTable) {r : String} {w : TxRef}
    (h : lookupR t1 r = some w) : lookupR (t1 ++ t2) r = some w := by
  induction t1 with
  | nil => simp [lookupR] at h
  | cons p rest ih =>
    by_cases hp : p.1 = r
    · simp only [lookupR, if_pos hp] at h
      simpa [lookupR, hp] using h
    · simp only [lookupR, if_neg hp] at h
      simpa [lookupR, hp] using ih h

theorem lookupR_append_none {t1 : RTable} (t2 : RTable) {r : String}
    (h : lookupR t1 r = none) : lookupR (t1 ++ t2) r = lookupR t2 r := by
  induction t1 with
  | nil => simp
  | cons p rest ih =>
    by_cases hp : p.1 = r
    · simp [lookupR, hp] at h
    · simp only [lookupR, if_neg hp] at h
      simpa [lookupR, hp] using ih h

theorem lookupR_eq_none_iff (tbl : RTable) (r : String) :
    lookupR tbl r = none ↔ r ∉ tbl.map Prod.fst := by
  induction tbl with
  | nil => simp [lookupR]
  | cons p rest ih =>
    by_cases hp : p.1 = r
    · simp [lookupR, hp]
    · simp [lookupR, hp, ih, Ne.symm hp]

theorem lookupR_singleton_ne {r r' : String} (ref : TxRef) (h : r' ≠ r) :
    lookupR [(r', ref)] r = none := by
  simp [lookupR, h]

theorem batchAux_cons_seen {tx : TxInput} {seen : List String}
    (tbl : RTable) (cols : List CollisionResult) (rest : List TxInput)
    (h : tx.rValue ∈ seen) :
    batchAux tbl seen cols (tx :: rest) = batchAux tbl seen cols rest := by
  rw [batchAux, if_pos h]

theorem batchAux_cons_existing {tx : TxInput} {seen : List String} {tbl : RTable}
    {existing : TxRef} (cols : List CollisionResult) (rest : List TxInput)
    (h : tx.rValue ∉ seen) (hlook : lookupR tbl tx.rValue = some existing) :
    batchAux tbl seen cols (tx :: rest)
      = if eqFold existing.txHash tx.txHash then
          batchAux tbl (tx.rValue :: seen) cols rest
        else
          batchAux tbl (tx.rValue :: seen)
            (cols ++ [⟨tx.rValue, tx.txHash, tx.chainID, tx.address, existing⟩]) rest := by
  rw [batchAux, if_neg h, hlook]

theorem batchAux_cons_new {tx : TxInput} {seen : List String} {tbl : RTable}
    (cols : List CollisionResult) (rest : List TxInput)
    (h : tx.rValue ∉ seen) (hlook : lookupR tbl tx.rValue = none) :
    batchAux tbl seen cols (tx :: rest)
      = batchAux (tbl ++ [(tx.rValue, ⟨tx.txHash, tx.chainID⟩)]) (tx.rValue :: seen)
          cols rest := by
  rw [batchAux, if_neg h, hlook]

/-- The pre-batch witness when the R value is already indexed, else the
reference of its first occurrence in the batch. -/
def orFirst (o : Option TxRef) (bat : List TxInput) (r : String) : Option TxRef :=
  match o with
  | some w => some w
  | none => (bat.find? (fun t : TxInput => t.rValue == r)).map
      (fun t : TxInput => (⟨t.txHash, t.chainID⟩ : TxRef))

theorem orFirst_cons_shift (o : Option TxRef) (tx : TxInput) (rest : List TxInput)
    (r : String) (h : tx.rValue = r → o.isSome) :
    orFirst o rest r = orFirst o (tx :: rest) r := by
  cases o with
  | some w => rfl
  | none =>
    have hne : (tx.rValue == r) = false := by
      by_cases he : tx.rValue = r
      · exact absurd (h he) (by simp)
      · simp [he]
    simp [orFirst, List.find?_cons, hne]

/-- After running a batch, the lookup of any R value is its pre-batch witness
if one exists, and otherwise the first occurrence of that R in the batch. -/
theorem batchAux_lookup (txs : List TxInput) :
    ∀ (tbl : RTable) (seen : List String) (cols : List CollisionResult) (r : String),
    (∀ x ∈ seen, (lookupR tbl x).isSome) →
    lookupR (batchAux tbl seen cols txs).1 r = orFirst (lookupR tbl r) txs r := by
  induction txs with
  | nil =>
    intro tbl seen cols r _
    cases hl : lookupR tbl r <;> simp [batchAux, orFirst, hl]
  | cons tx rest ih =>
    intro tbl seen cols r hseen
    by_cases hmem : tx.rValue ∈ seen
    · rw [batchAux_cons_seen tbl cols rest hmem, ih tbl seen cols r hseen]
      exact orFirst_cons_shift _ tx rest r (fun he => he ▸ hseen tx.rValue hmem)
    · cases hlook : lookupR tbl tx.rValue with
      | some existing =>
        rw [batchAux_cons_existing cols rest hmem hlook]
        have hseen' : ∀ x ∈ tx.rValue :: seen, (lookupR tbl x).isSome := by
          intro x hx
          rcases List.mem_cons.mp hx with hx | hx
          · rw [hx, hlook]; rfl
          · exact hseen x hx
        have hshift := orFirst_cons_shift (lookupR tbl r) tx rest r
          (fun he => by rw [← he, hlook]; rfl)
        by_cases hfold : eqFold existing.txHash tx.txHash
        · rw [if_pos hfold, ih tbl _ _ r hseen', hshift]
        · rw [if_neg hfold, ih tbl _ _ r hseen', hshift]
      | none =>
        rw [batchAux_cons_new cols rest hmem hlook]
        have hseen' : ∀ x ∈ tx.rValue :: seen,
            (lookupR (tbl ++ [(tx.rValue, (⟨tx.txHash, tx.chainID⟩ : TxRef))]) x).isSome := by
          intro x hx
          rcases List.mem_cons.mp hx with hx | hx
          · rw [hx, lookupR_append_none _ hlook]
            simp [lookupR]
          · obtain ⟨w, hw⟩ := Option.isSome_iff_exists.mp (hseen x hx)
            rw [lookupR_append_some _ hw]; rfl
        rw [ih (tbl ++ [(tx.rValue, (⟨tx.txHash, tx.chainID⟩ : TxRef))]) (tx.rValue :: seen) cols r hseen']
        by_cases heq : tx.rValue = r
        · subst heq
          rw [lookupR_append_none _ hlook, hlook]
          simp [lookupR, orFirst, List.find?_cons]
        · have hl2 : lookupR (tbl ++ [(tx.rValue, (⟨tx.txHash, tx.chainID⟩ : TxRef))]) r
              = lookupR tbl r := by
            cases hl : lookupR tbl r with
            | some w => exact lookupR_append_some _ hl
            | none =>
              rw [lookupR_append_none _ hl]
              exact lookupR_singleton_ne _ heq
          rw [hl2]
          exact orFirst_cons_shift (lookupR tbl r) tx rest r (fun he => absurd he heq)

theorem lookupR_keys_seen {ext : RTable} {seen : List String} {r : String}
    (hk : ∀ p ∈ ext, p.1 ∈ seen) (hr : r ∉ seen) : lookupR ext r = none := by
  rw [lookupR_eq_none_iff]
  intro hmem
  obtain ⟨p, hp, hp1⟩ := List.mem_map.mp hmem
  exact hr (hp1 ▸ hk p hp)

/-- The collisions reported for a batch are exactly those of the first
occurrence of each R value, evaluated against the pre-batch index. -/
theorem batchAux_cols (txs : List TxInput) :
    ∀ (tbl ext : RTable) (seen : List String) (cols : List CollisionResult),
    (∀ p ∈ ext, p.1 ∈ seen) →
    (batchAux (tbl ++ ext) seen cols txs).2
      = cols ++ (firstOccsFrom seen txs).filterMap (colOf tbl) := by
  induction txs with
  | nil => intro tbl ext seen cols _; simp [batchAux, firstOccsFrom]
  | cons tx rest ih =>
    intro tbl ext seen cols hext
    by_cases hmem : tx.rValue ∈ seen
    · rw [batchAux_cons_seen _ _ _ hmem]
      simp only [firstOccsFrom]
      rw [if_pos hmem]
      exact ih tbl ext seen cols hext
    · have hextlook : lookupR ext tx.rValue = none := lookupR_keys_seen hext hmem
      have hext' : ∀ p ∈ ext, p.1 ∈ tx.rValue :: seen :=
        fun p hp => List.mem_cons_of_mem _ (hext p hp)
      simp only [firstOccsFrom]
      rw [if_neg hmem]
      cases hlt : lookupR tbl tx.rValue with
      | some w =>
        have hlook : lookupR (tbl ++ ext) tx.rValue = some w := lookupR_append_some _ hlt
        rw [batchAux_cons_existing cols rest hmem hlook]
        by_cases hfold : eqFold w.txHash tx.txHash
        · rw [if_pos hfold, ih tbl ext _ cols hext']
          have hc : colOf tbl tx = none := by simp [colOf, hlt, hfold]
          rw [List.filterMap_cons, hc]
        · rw [if_neg hfold, ih tbl ext _ _ hext']
          have hc : colOf tbl tx
              = some ⟨tx.rValue, tx.txHash, tx.chainID, tx.address, w⟩ := by
            simp [colOf, hlt, hfold]
          rw [List.filterMap_cons, hc, List.append_assoc, List.singleton_append]
      | none =>
        have hlook : lookupR (tbl ++ ext) tx.rValue = none := by
          rw [lookupR_append_none _ hlt, hextlook]
        rw [batchAux_cons_new cols rest hmem hlook, List.append_assoc]
        have hext2 : ∀ p ∈ ext ++ [(tx.rValue, (⟨tx.txHash, tx.chainID⟩ : TxRef))],
            p.1 ∈ tx.rValue :: seen := by
          intro p hp
          rcases List.mem_append.mp hp with hp | hp
          · exact List.mem_cons_of_mem _ (hext p hp)
          · rw [List.mem_singleton.mp hp]
            exact List.mem_cons_self _ _
        rw [ih tbl _ _ cols hext2]
        have hc : colOf tbl tx = none := by simp [colOf, hlt]
        rw [List.filterMap_cons, hc]

/-- Witness insertions keep the R-index keys duplicate-free: the index never
holds two rows for the same R value. -/
theorem batchAux_nodup (txs : List TxInput) :
    ∀ (tbl : RTable) (seen : List String) (cols : List CollisionResult),
    (tbl.map Prod.fst).Nodup → ((batchAux tbl seen cols txs).1.map Prod.fst).Nodup := by
  induction txs with
  | nil => intro tbl seen cols h; simpa [batchAux] using h
  | cons tx rest ih =>
    intro tbl seen cols h
    by_cases hmem : tx.rValue ∈ seen
    · rw [batchAux_cons_seen _ _ _ hmem]
      exact ih tbl seen cols h
    · cases hlook : lookupR tbl tx.rValue with
      | some w =>
        rw [batchAux_cons_existing cols rest hmem hlook]
        by_cases hfold : eqFold w.txHash tx.txHash
        · rw [if_pos hfold]; exact ih tbl _ _ h
        · rw [if_neg hfold]; exact ih tbl _ _ h
      | none =>
        rw [batchAux_cons_new cols rest hmem hlook]
        apply ih
        have hnotin : tx.rValue ∉ tbl.map Prod.fst :=
          (lookupR_eq_none_iff tbl tx.rValue).mp hlook
        rw [List.map_append]
        simp [List.nodup_append, h, hnotin]

/-- The R-index produced by a sequence of batch calls, stripped of the MockDB
wrapper. -/
def foldTbl (tbl : RTable) : List (List TxInput) → RTable
  | [] => tbl
  | b :: bs => foldTbl (batchAux tbl [] [] b).1 bs

theorem runBatches_rValues (bs : List (List TxInput)) : ∀ m : MockDB,
    (runBatches m bs).1.rValues = foldTbl m.rValues bs := by
  induction bs with
  | nil => intro m; rfl
  | cons b bs ih =>
    intro m
    simp [runBatches, foldTbl, MockDB.batchCheckAndInsertRValues, ih]

theorem foldTbl_append (bs cs : List (List TxInput)) : ∀ tbl : RTable,
    foldTbl tbl (bs ++ cs) = foldTbl (foldTbl tbl bs) cs := by
  induction bs with
  | nil => intro tbl; rfl
  | cons b bs ih => intro tbl; simp [foldTbl, ih]

/-- A witness, once present, is never replaced or deleted by later batches. -/
theorem foldTbl_some (bs : List (List TxInput)) : ∀ (tbl : RTable) (r : String) (w : TxRef),
    lookupR tbl r = some w → lookupR (foldTbl tbl bs) r = some w := by
  induction bs with
  | nil => intro tbl r w h; exact h
  | cons b bs ih =>
    intro tbl r w h
    rw [foldTbl]
    apply ih
    rw [batchAux_lookup b tbl [] [] r (by simp), h]
    rfl

theorem foldTbl_nodup (bs : List (List TxInput)) : ∀ tbl : RTable,
    (tbl.map Prod.fst).Nodup → ((foldTbl tbl bs).map Prod.fst).Nodup := by
  induction bs with
  | nil => intro tbl h; exact h
  | cons b bs ih => intro tbl h; exact ih _ (batchAux_nodup b tbl [] [] h)

theorem find?_append_some {α : Type} {p : α → Bool} {l1 : List α} (l2 : List α) {a : α}
    (h : l1.find? p = some a) : (l1 ++ l2).find? p = some a := by
  induction l1 with
  | nil => simp [List.find?_nil] at h
  | cons x rest ih =>
    cases hp : p x with
    | true =>
      rw [List.find?_cons_of_pos _ hp] at h
      rw [List.cons_append, List.find?_cons_of_pos _ hp]
      exact h
    | false =>
      rw [List.find?_cons_of_neg _ (by simp [hp])] at h
      rw [List.cons_append, List.find?_cons_of_neg _ (by simp [hp])]
      exact ih h

theorem find?_append_none {α : Type} {p : α → Bool} {l1 : List α} (l2 : List α)
    (h : l1.find? p = none) : (l1 ++ l2).find? p = l2.find? p := by
  induction l1 with
  | nil => rfl
  | cons x rest ih =>
    cases hp : p x with
    | true => rw [List.find?_cons_of_pos _ hp] at h; exact absurd h (by simp)
    | false =>
      rw [List.find?_cons_of_neg _ (by simp [hp])] at h
      rw [List.cons_append, List.find?_cons_of_neg _ (by simp [hp])]
      exact ih h

/-- Starting from an index with no row for r, the witness after a sequence of
batches is the first occurrence of r across the concatenated batches. -/
theorem foldTbl_first (bs : List (List TxInput)) : ∀ (tbl : RTable) (r : String),
    lookupR tbl r = none →
    lookupR (foldTbl tbl bs) r
      = ((bs.flatten).find? (fun t : TxInput => t.rValue == r)).map
          (fun t : TxInput => (⟨t.txHash, t.chainID⟩ : TxRef)) := by
  induction bs with
  | nil => intro tbl r h; simpa [foldTbl] using h
  | cons b bs ih =>
    intro tbl r h
    have hjoin : (b :: bs).flatten = b ++ bs.flatten := rfl
    rw [foldTbl, hjoin]
    cases hf : b.find? (fun t : TxInput => t.rValue == r) with
    | some t0 =>
      have hl : lookupR (batchAux tbl [] [] b).1 r = some ⟨t0.txHash, t0.chainID⟩ := by
        rw [batchAux_lookup b tbl [] [] r (by simp), h]
        simp [orFirst, hf]
      rw [foldTbl_some bs _ r _ hl, find?_append_some _ hf]
      rfl
    | none =>
      have hl : lookupR (batchAux tbl [] [] b).1 r = none := by
        rw [batchAux_lookup b tbl [] [] r (by simp), h]
        simp [orFirst, hf]
      rw [ih _ r hl, find?_append_none _ hf]

/-- Processing a batch is the same as processing only the first occurrence of
each R value: later batch-internal occurrences are skipped entirely. -/
theorem batchAux_firstOccs (txs : List TxInput) :
    ∀ (tbl : RTable) (seen : List String) (cols : List CollisionResult),
    batchAux tbl seen cols txs = batchAux tbl seen cols (firstOccsFrom seen txs) := by
  induction txs with
  | nil => intro tbl seen cols; rfl
  | cons tx rest ih =>
    intro tbl seen cols
    by_cases hmem : tx.rValue ∈ seen
    · rw [batchAux_cons_seen _ _ _ hmem]
      simp only [firstOccsFrom]
      rw [if_pos hmem]
      exact ih tbl seen cols
    · simp only [firstOccsFrom]
      rw [if_neg hmem]
      cases hlook : lookupR tbl tx.rValue with
      | some w =>
        rw [batchAux_cons_existing cols rest hmem hlook,
          batchAux_cons_existing cols (firstOccsFrom (tx.rValue :: seen) rest) hmem hlook]
        by_cases hfold : eqFold w.txHash tx.txHash
        · rw [if_pos hfold, if_pos hfold]
          exact ih tbl _ _
        · rw [if_neg hfold, if_neg hfold]
          exact ih tbl _ _
      | none =>
        rw [batchAux_cons_new cols rest hmem hlook,
          batchAux_cons_new cols (firstOccsFrom (tx.rValue :: seen) rest) hmem hlook]
        exact ih _ _ _

/-- Claim C1, amended.  Over any sequence of BatchCheckAndInsertRValues calls
starting from a fresh mock: (1) the R-index holds at most one row per R value;
(2) the row for each R is exactly the first occurrence of that R across the
concatenated batches, so it exists exactly when the R was ever submitted;
(3) a witness, once created, is never replaced or deleted by a later batch;
(4) the collisions reported for the next batch are exactly those entries that
are the first occurrence of their R value within that batch and whose R is
already in the index under a case-insensitively different tx hash, each
reported against the stored witness.  (The claim as frozen also demanded a
collision for batch-internal repeat occurrences of an R; the code skips those
entirely, see the counterexample.) -/
theorem rIndex_witness_invariants
    (bs : List (List TxInput)) (b : List TxInput) (r : String) (w : TxRef) :
    ((runBatches NewMock bs).1.rValues.map Prod.fst).Nodup
    ∧ (lookupR (runBatches NewMock bs).1.rValues r
        = ((bs.flatten).find? (fun t : TxInput => t.rValue == r)).map
            (fun t : TxInput => (⟨t.txHash, t.chainID⟩ : TxRef)))
    ∧ (lookupR (runBatches NewMock bs).1.rValues r = some w →
        lookupR (runBatches NewMock (bs ++ [b])).1.rValues r = some w)
    ∧ ((runBatches NewMock bs).1.batchCheckAndInsertRValues b).2
        = (firstOccsFrom [] b).filterMap (colOf (runBatches NewMock bs).1.rValues) := by
  refine ⟨?_, ?_, ?_, ?_⟩
  · rw [runBatches_rValues]
    exact foldTbl_nodup bs [] (by simp)
  · rw [runBatches_rValues]
    exact foldTbl_first bs [] r rfl
  · intro h
    rw [runBatches_rValues] at h ⊢
    rw [foldTbl_append]
    exact foldTbl_some [b] _ r w h
  · show (batchAux (runBatches NewMock bs).1.rValues [] [] b).2 = _
    have hc := batchAux_cols b (runBatches NewMock bs).1.rValues [] [] [] (by simp)
    simpa using hc

/-- Witness for rIndex_witness_invariants: R value 0xaa is inserted by the
first batch with tx 0xt1; after a second batch resubmitting 0xaa with a
different hash, and a third, the stored witness is still (0xt1, 1). -/
theorem rIndex_witness_invariants_witness :
    lookupR (runBatches NewMock
        [[⟨"0xaa", "0xt1", 1, "0xa1"⟩], [⟨"0xaa", "0xt2", 1, "0xa2"⟩]]).1.rValues "0xaa"
      = some ⟨"0xt1", 1⟩
    ∧ lookupR (runBatches NewMock
        ([[⟨"0xaa", "0xt1", 1, "0xa1"⟩], [⟨"0xaa", "0xt2", 1, "0xa2"⟩]]
          ++ [[⟨"0xaa", "0xt3", 1, "0xa3"⟩]])).1.rValues "0xaa"
      = some ⟨"0xt1", 1⟩ := by
  have hl : lookupR (runBatches NewMock
      [[⟨"0xaa", "0xt1", 1, "0xa1"⟩], [⟨"0xaa", "0xt2", 1, "0xa2"⟩]]).1.rValues "0xaa"
      = some ⟨"0xt1", 1⟩ := by decide
  exact ⟨hl,
    (rIndex_witness_invariants
      [[⟨"0xaa", "0xt1", 1, "0xa1"⟩], [⟨"0xaa", "0xt2", 1, "0xa2"⟩]]
      [⟨"0xaa", "0xt3", 1, "0xa3"⟩] "0xaa" ⟨"0xt1", 1⟩).2.2.1 hl⟩

/-- Counterexample to claim C1 as frozen: within a single batch carrying two
occurrences of R value 0xcc with different tx hashes, the second occurrence
is skipped by the seen-set and produces no collision row, although the claim
requires every other occurrence with a different tx hash to be reported
against the witness. -/
theorem rIndex_witness_counterexample :
    (NewMock.batchCheckAndInsertRValues
        [⟨"0xcc", "0xk1", 5, "0xa"⟩, ⟨"0xcc", "0xk2", 5, "0xb"⟩]).2 = []
    ∧ eqFold "0xk1" "0xk2" = false := by
  constructor
  · rfl
  · rfl

/-- Claim C5, amended: within a batch only the first occurrence of each R
value participates; every later batch-internal occurrence of the same R is
skipped entirely (no insert and no collision row), so processing a batch
equals processing the first occurrence of each R only. -/
theorem batchInsert_dedup_eq (m : MockDB) (txs : List TxInput) :
    m.batchCheckAndInsertRValues txs
      = m.batchCheckAndInsertRValues (firstOccsFrom [] txs) := by
  simp only [MockDB.batchCheckAndInsertRValues]
  rw [batchAux_firstOccs txs m.rValues [] []]

/-- Witness for batchInsert_dedup_eq at a concrete batch with an internal
duplicate R value. -/
theorem batchInsert_dedup_eq_witness :
    NewMock.batchCheckAndInsertRValues
        [⟨"0xr1", "0xh1", 1, "0xa"⟩, ⟨"0xr1", "0xh2", 1, "0xb"⟩, ⟨"0xr2", "0xh3", 1, "0xc"⟩]
      = NewMock.batchCheckAndInsertRValues
          (firstOccsFrom []
            [⟨"0xr1", "0xh1", 1, "0xa"⟩, ⟨"0xr1", "0xh2", 1, "0xb"⟩, ⟨"0xr2", "0xh3", 1, "0xc"⟩]) :=
  batchInsert_dedup_eq NewMock
    [⟨"0xr1", "0xh1", 1, "0xa"⟩, ⟨"0xr1", "0xh2", 1, "0xb"⟩, ⟨"0xr2", "0xh3", 1, "0xc"⟩]

/-- Counterexample to claim C5 as frozen: a batch whose second entry repeats
the R value of the first under a different tx hash yields no collision at
all, not a collision against the just-inserted first occurrence. -/
theorem batchInsert_dup_counterexample :
    (NewMock.batchCheckAndInsertRValues
        [⟨"0xr", "0xh1", 1, "0xa"⟩, ⟨"0xr", "0xh2", 1, "0xb"⟩]).2.length = 0
    ∧ (eqFold "0xh2" "0xh1") = false := by
  constructor
  · rfl
  · rfl

/-!  Hex conversion (db.go:228-237) and the recovered-key and recovered-nonce
stores of the live adapter (db.go:338-359, 407-414) and the mock
(mock.go:186-192, 214-219). -/

/-- encoding/hex digit value: 0-9, a-f, A-F. -/
def hexDigitVal (c : Char) : Option Nat :=
  if 48 ≤ c.toNat ∧ c.toNat ≤ 57 then some (c.toNat - 48)
  else if 97 ≤ c.toNat ∧ c.toNat ≤ 102 then some (c.toNat - 87)
  else if 65 ≤ c.toNat ∧ c.toNat ≤ 70 then some (c.toNat - 55)
  else none

/-- hex.DecodeString with the error dropped, as in db.go's hexToBytes: the
bytes decoded before the first error are kept. -/
def hexBytesLoose : List Char → List Nat
  | c1 :: c2 :: rest =>
    match hexDigitVal c1, hexDigitVal c2 with
    | some a, some b => (16 * a + b) :: hexBytesLoose rest
    | _, _ => []
  | _ => []

/-- strings.TrimPrefix(s, "0x"). -/
def strTrim0x (s : String) : String :=
  match s.data with
  | '0' :: 'x' :: rest => ⟨rest⟩
  | _ => s

/-- hexToBytes (db.go:229-233). -/
def hexToBytes (s : String) : List Nat := hexBytesLoose (strTrim0x s).data

/-- One row of the recovered_keys table (db.go migration, BYTEA columns). -/
structure DbKeyRow where
  id : Nat
  address : List Nat
  privateKey : List Nat
  chainID : Nat
  rValues : List (List Nat)
  txHashes : List (List Nat)
deriving DecidableEq

/-- One row of the recovered_nonces table. -/
structure DbNonceRow where
  rValue : List Nat
  kValue : List Nat
  derivedFromKeyID : Nat
deriving DecidableEq

/-- The UNIQUE(address, chain_id) conflict column of recovered_keys. -/
def dbKeyOf (row : DbKeyRow) : List Nat × Nat := (row.address, row.chainID)

def dbKeyMatches (addr : List Nat) (chainID : Nat) (row : DbKeyRow) : Bool :=
  row.address == addr && row.chainID == chainID

/-- DB.SaveRecoveredKey (db.go:339-359): INSERT .. ON CONFLICT (address,
chain_id) DO UPDATE SET private_key, r_values, tx_hashes RETURNING id.  The
BIGSERIAL id is modelled as one past the current row count. -/
def DB.saveRecoveredKey (tbl : List DbKeyRow) (key : RecoveredKey) : Nat × List DbKeyRow :=
  match tbl.find? (dbKeyMatches (hexToBytes key.address) key.chainID) with
  | some row =>
    (row.id, tbl.map fun row' =>
      if dbKeyMatches (hexToBytes key.address) key.chainID row' then
        { row' with privateKey := hexToBytes key.privateKey,
                    rValues := key.rValues.map hexToBytes,
                    txHashes := key.txHashes.map hexToBytes }
      else row')
  | none =>
    (tbl.length + 1,
      tbl ++ [⟨tbl.length + 1, hexToBytes key.address, hexToBytes key.privateKey,
        key.chainID, key.rValues.map hexToBytes, key.txHashes.map hexToBytes⟩])

/-- DB.SaveRecoveredNonce (db.go:408-414): INSERT .. ON CONFLICT (r_value)
DO UPDATE SET k_value. -/
def DB.saveRecoveredNonce (tbl : List DbNonceRow) (n : RecoveredNonce) : List DbNonceRow :=
  match tbl.find? (fun row => row.rValue == hexToBytes n.rValue) with
  | some _ =>
    tbl.map fun row =>
      if row.rValue == hexToBytes n.rValue then { row with kValue := hexToBytes n.kValue }
      else row
  | none => tbl ++ [⟨hexToBytes n.rValue, hexToBytes n.kValue, n.derivedFromKeyID⟩]

/-- MockDB.SaveRecoveredKey (mock.go:186-192): assigns id = len(keys)+1 and
appends unconditionally. -/
def MockDB.saveRecoveredKey (m : MockDB) (key : RecoveredKey) : Nat × MockDB :=
  (m.keys.length + 1,
    { m with keys := m.keys ++ [{ key with id := m.keys.length + 1 }] })

/-- Go map assignment m.nonces[r] = v, modelled on the association list. -/
def upsertNonce : List (String × RecoveredNonce) → String → RecoveredNonce →
    List (String × RecoveredNonce)
  | [], k, v => [(k, v)]
  | (k', v') :: rest, k, v =>
    if k' = k then (k, v) :: rest else (k', v') :: upsertNonce rest k v

/-- MockDB.SaveRecoveredNonce (mock.go:214-219). -/
def MockDB.saveRecoveredNonce (m : MockDB) (n : RecoveredNonce) : MockDB :=
  { m with nonces := upsertNonce m.nonces n.rValue n }

theorem find?_map_pres {α : Type} {p : α → Bool} {f : α → α}
    (hpf : ∀ a, p (f a) = p a) (l : List α) :
    (l.map f).find? p = (l.find? p).map f := by
  induction l with
  | nil => rfl
  | cons x rest ih =>
    cases hp : p x with
    | true =>
      rw [List.map_cons, List.find?_cons_of_pos _ (by rw [hpf]; exact hp),
        List.find?_cons_of_pos _ hp]
      rfl
    | false =>
      rw [List.map_cons, List.find?_cons_of_neg _ (by simp [hpf, hp]),
        List.find?_cons_of_neg _ (by simp [hp])]
      exact ih

theorem dbKeyMatches_update (addr : List Nat) (chainID : Nat) (pk : List Nat)
    (rvs ths : List (List Nat)) (row : DbKeyRow) :
    dbKeyMatches addr chainID
      { row with privateKey := pk, rValues := rvs, txHashes := ths }
      = dbKeyMatches addr chainID row := rfl

theorem dbSaveKey_idem (tbl : List DbKeyRow) (key : RecoveredKey) :
    DB.saveRecoveredKey (DB.saveRecoveredKey tbl key).2 key
      = DB.saveRecoveredKey tbl key := by
  unfold DB.saveRecoveredKey
  cases hf : tbl.find? (dbKeyMatches (hexToBytes key.address) key.chainID) with
  | some row =>
    have hpf : ∀ row' : DbKeyRow,
        dbKeyMatches (hexToBytes key.address) key.chainID
            (if dbKeyMatches (hexToBytes key.address) key.chainID row' then
              { row' with privateKey := hexToBytes key.privateKey,
                          rValues := key.rValues.map hexToBytes,
                          txHashes := key.txHashes.map hexToBytes }
            else row')
          = dbKeyMatches (hexToBytes key.address) key.chainID row' := by
      intro row'
      by_cases hp : dbKeyMatches (hexToBytes key.address) key.chainID row'
      · rw [if_pos hp, dbKeyMatches_update, hp]
      · rw [if_neg hp]
    rw [find?_map_pres hpf tbl, hf]
    simp only [Option.map_some']
    have hid : (if dbKeyMatches (hexToBytes key.address) key.chainID row then
        { row with privateKey := hexToBytes key.privateKey,
                   rValues := key.rValues.map hexToBytes,
                   txHashes := key.txHashes.map hexToBytes }
      else row).id = row.id := by
      by_cases hp : dbKeyMatches (hexToBytes key.address) key.chainID row
      · rw [if_pos hp]
      · rw [if_neg hp]
    rw [hid, List.map_map]
    congr 1
    apply List.map_congr_left
    intro a _
    simp only [Function.comp_apply]
    by_cases hp : dbKeyMatches (hexToBytes key.address) key.chainID a
    · rw [if_pos hp, if_pos (by rw [dbKeyMatches_update]; exact hp)]
    · rw [if_neg hp, if_neg hp]
  | none =>
    have hnew : dbKeyMatches (hexToBytes key.address) key.chainID
        (⟨tbl.length + 1, hexToBytes key.address, hexToBytes key.privateKey,
          key.chainID, key.rValues.map hexToBytes, key.txHashes.map hexToBytes⟩ : DbKeyRow)
        = true := by
      simp [dbKeyMatches]
    rw [find?_append_none _ hf, List.find?_cons_of_pos _ hnew]
    simp only [Option.map_some']
    congr 1
    rw [List.map_append]
    congr 1
    · have hall : ∀ a ∈ tbl,
          (if dbKeyMatches (hexToBytes key.address) key.chainID a then
            { a with privateKey := hexToBytes key.privateKey,
                     rValues := key.rValues.map hexToBytes,
                     txHashes := key.txHashes.map hexToBytes }
          else a) = a := by
        intro a ha
        exact if_neg (List.find?_eq_none.mp hf a ha)
      calc tbl.map _ = tbl.map id := List.map_congr_left hall
        _ = tbl := List.map_id tbl
    · rw [List.map_cons, List.map_nil, if_pos hnew]

def nonceUpd (n : RecoveredNonce) (row : DbNonceRow) : DbNonceRow :=
  if row.rValue == hexToBytes n.rValue then { row with kValue := hexToBytes n.kValue }
  else row

theorem dbSaveNonce_found_eq (tbl : List DbNonceRow) (n : RecoveredNonce) (row : DbNonceRow)
    (h : tbl.find? (fun row => row.rValue == hexToBytes n.rValue) = some row) :
    DB.saveRecoveredNonce tbl n = tbl.map (nonceUpd n) := by
  unfold DB.saveRecoveredNonce nonceUpd
  rw [h]

theorem dbSaveNonce_new_eq (tbl : List DbNonceRow) (n : RecoveredNonce)
    (h : tbl.find? (fun row => row.rValue == hexToBytes n.rValue) = none) :
    DB.saveRecoveredNonce tbl n
      = tbl ++ [⟨hexToBytes n.rValue, hexToBytes n.kValue, n.derivedFromKeyID⟩] := by
  unfold DB.saveRecoveredNonce
  rw [h]

theorem nonceUpd_keeps_key (n : RecoveredNonce) (row : DbNonceRow) :
    (fun row : DbNonceRow => row.rValue == hexToBytes n.rValue) (nonceUpd n row)
      = (fun row : DbNonceRow => row.rValue == hexToBytes n.rValue) row := by
  unfold nonceUpd
  by_cases hp : row.rValue == hexToBytes n.rValue
  · rw [if_pos hp]
  · rw [if_neg hp]

theorem dbSaveNonce_idem (tbl : List DbNonceRow) (n : RecoveredNonce) :
    DB.saveRecoveredNonce (DB.saveRecoveredNonce tbl n) n
      = DB.saveRecoveredNonce tbl n := by
  cases hf : tbl.find? (fun row => row.rValue == hexToBytes n.rValue) with
  | some row =>
    rw [dbSaveNonce_found_eq tbl n row hf]
    have hf2 : (tbl.map (nonceUpd n)).find?
        (fun row => row.rValue == hexToBytes n.rValue) = some (nonceUpd n row) := by
      rw [find?_map_pres (nonceUpd_keeps_key n) tbl, hf]
      rfl
    rw [dbSaveNonce_found_eq _ n _ hf2, List.map_map]
    apply List.map_congr_left
    intro a _
    simp only [Function.comp_apply]
    unfold nonceUpd
    by_cases hp : a.rValue == hexToBytes n.rValue
    · simp [hp]
    · simp [hp]
  | none =>
    rw [dbSaveNonce_new_eq tbl n hf]
    have hnew : (fun row : DbNonceRow => row.rValue == hexToBytes n.rValue)
        ⟨hexToBytes n.rValue, hexToBytes n.kValue, n.derivedFromKeyID⟩ = true := by
      simp
    have hf2 : ((tbl ++ [(⟨hexToBytes n.rValue, hexToBytes n.kValue,
        n.derivedFromKeyID⟩ : DbNonceRow)]).find?
          (fun row => row.rValue == hexToBytes n.rValue))
        = some ⟨hexToBytes n.rValue, hexToBytes n.kValue, n.derivedFromKeyID⟩ := by
      rw [find?_append_none _ hf]
      simp [List.find?_cons]
    rw [dbSaveNonce_found_eq _ n _ hf2, List.map_append]
    congr 1
    · have hall : ∀ a ∈ tbl, nonceUpd n a = a := by
        intro a ha
        exact if_neg (by simpa using List.find?_eq_none.mp hf a ha)
      calc tbl.map _ = tbl.map id := List.map_congr_left hall
        _ = tbl := List.map_id tbl
    · rw [List.map_cons, List.map_nil]
      simp [nonceUpd]

theorem dbSaveKey_nodup (tbl : List DbKeyRow) (key : RecoveredKey)
    (h : (tbl.map dbKeyOf).Nodup) :
    (((DB.saveRecoveredKey tbl key).2).map dbKeyOf).Nodup := by
  unfold DB.saveRecoveredKey
  cases hf : tbl.find? (dbKeyMatches (hexToBytes key.address) key.chainID) with
  | some row =>
    simp only
    rw [List.map_map]
    have hcong : ∀ a ∈ tbl, (dbKeyOf ∘ fun row' =>
        if dbKeyMatches (hexToBytes key.address) key.chainID row' then
          { row' with privateKey := hexToBytes key.privateKey,
                      rValues := key.rValues.map hexToBytes,
                      txHashes := key.txHashes.map hexToBytes }
        else row') a = dbKeyOf a := by
      intro a _
      simp only [Function.comp_apply]
      by_cases hp : dbKeyMatches (hexToBytes key.address) key.chainID a
      · rw [if_pos hp]; rfl
      · rw [if_neg hp]
    rw [List.map_congr_left hcong]
    exact h
  | none =>
    simp only
    rw [List.map_append]
    have hnotin : (hexToBytes key.address, key.chainID) ∉ tbl.map dbKeyOf := by
      intro hmem
      obtain ⟨a, ha, hk⟩ := List.mem_map.mp hmem
      have := List.find?_eq_none.mp hf a ha
      apply this
      simp only [dbKeyMatches]
      have h1 : a.address = hexToBytes key.address := congrArg Prod.fst hk
      have h2 : a.chainID = key.chainID := congrArg Prod.snd hk
      simp [h1, h2]
    simp [List.nodup_append, h, dbKeyOf, hnotin]

theorem dbSaveNonce_nodup (tbl : List DbNonceRow) (n : RecoveredNonce)
    (h : (tbl.map DbNonceRow.rValue).Nodup) :
    ((DB.saveRecoveredNonce tbl n).map DbNonceRow.rValue).Nodup := by
  unfold DB.saveRecoveredNonce
  cases hf : tbl.find? (fun row => row.rValue == hexToBytes n.rValue) with
  | some row =>
    simp only
    rw [List.map_map]
    have hcong : ∀ a ∈ tbl, (DbNonceRow.rValue ∘ fun row =>
        if row.rValue == hexToBytes n.rValue then
          { row with kValue := hexToBytes n.kValue }
        else row) a = DbNonceRow.rValue a := by
      intro a _
      simp only [Function.comp_apply]
      by_cases hp : a.rValue == hexToBytes n.rValue
      · rw [if_pos hp]
      · rw [if_neg hp]
    rw [List.map_congr_left hcong]
    exact h
  | none =>
    simp only
    rw [List.map_append]
    have hnotin : hexToBytes n.rValue ∉ tbl.map DbNonceRow.rValue := by
      intro hmem
      obtain ⟨a, ha, hk⟩ := List.mem_map.mp hmem
      have := List.find?_eq_none.mp hf a ha
      apply this
      simp [hk]
    simp [List.nodup_append, h, hnotin]

theorem upsertNonce_idem (l : List (String × RecoveredNonce)) (k : String)
    (v : RecoveredNonce) :
    upsertNonce (upsertNonce l k v) k v = upsertNonce l k v := by
  induction l with
  | nil => simp [upsertNonce]
  | cons p rest ih =>
    by_cases hp : p.1 = k
    · rw [show (p :: rest : List (String × RecoveredNonce)) = (p.1, p.2) :: rest from rfl,
        upsertNonce, if_pos hp, upsertNonce, if_pos rfl]
    · rw [show (p :: rest : List (String × RecoveredNonce)) = (p.1, p.2) :: rest from rfl,
        upsertNonce, if_neg hp, upsertNonce, if_neg hp, ih]

/-- Claim C6, amended.  The live adapter's SaveRecoveredKey and
SaveRecoveredNonce are idempotent upserts keyed on (address, chain_id) and r
respectively, and keep at most one row per key; the mock's
SaveRecoveredNonce is likewise an idempotent keyed write; but the mock's
SaveRecoveredKey appends a fresh row on every call and is not idempotent
(see the counterexample). -/
theorem saveRecovered_idempotence
    (tbl : List DbKeyRow) (ntbl : List DbNonceRow) (key : RecoveredKey)
    (n : RecoveredNonce) (m : MockDB) :
    DB.saveRecoveredKey (DB.saveRecoveredKey tbl key).2 key = DB.saveRecoveredKey tbl key
    ∧ DB.saveRecoveredNonce (DB.saveRecoveredNonce ntbl n) n = DB.saveRecoveredNonce ntbl n
    ∧ ((tbl.map dbKeyOf).Nodup → (((DB.saveRecoveredKey tbl key).2).map dbKeyOf).Nodup)
    ∧ ((ntbl.map DbNonceRow.rValue).Nodup →
        ((DB.saveRecoveredNonce ntbl n).map DbNonceRow.rValue).Nodup)
    ∧ (m.saveRecoveredNonce n).saveRecoveredNonce n = m.saveRecoveredNonce n :=
  ⟨dbSaveKey_idem tbl key, dbSaveNonce_idem ntbl n,
    dbSaveKey_nodup tbl key, dbSaveNonce_nodup ntbl n,
    congrArg (fun l => { m with nonces := l }) (upsertNonce_idem m.nonces n.rValue n)⟩

/-- Witness for saveRecovered_idempotence at concrete stores and entries. -/
theorem saveRecovered_idempotence_witness :
    DB.saveRecoveredKey
        (DB.saveRecoveredKey [] ⟨0, "0xaa", "0xpk", 1, "Ethereum", ["0xr1"], ["0xt1"], ""⟩).2
        ⟨0, "0xaa", "0xpk", 1, "Ethereum", ["0xr1"], ["0xt1"], ""⟩
      = DB.saveRecoveredKey [] ⟨0, "0xaa", "0xpk", 1, "Ethereum", ["0xr1"], ["0xt1"], ""⟩
    ∧ (([] : List DbKeyRow).map dbKeyOf).Nodup
    ∧ (((DB.saveRecoveredKey [] ⟨0, "0xaa", "0xpk", 1, "Ethereum", ["0xr1"], ["0xt1"], ""⟩).2).map
        dbKeyOf).Nodup := by
  have h := saveRecovered_idempotence [] [] ⟨0, "0xaa", "0xpk", 1, "Ethereum", ["0xr1"], ["0xt1"], ""⟩
    ⟨"0xr1", "0xk1", 1⟩ NewMock
  exact ⟨h.1, by decide, h.2.2.1 (by decide)⟩

/-- Counterexample to claim C6 as frozen: the mock's SaveRecoveredKey is not
an idempotent upsert: saving the same key twice appends two rows with the
same (address, chain_id), and the state after the second call differs from
the state after the first. -/
theorem mockSaveKey_counterexample :
    ((((NewMock.saveRecoveredKey ⟨0, "0xaa", "0xpk", 1, "", [], [], ""⟩).2).saveRecoveredKey
        ⟨0, "0xaa", "0xpk", 1, "", [], [], ""⟩).2).keys.length = 2
    ∧ (((NewMock.saveRecoveredKey ⟨0, "0xaa", "0xpk", 1, "", [], [], ""⟩).2).saveRecoveredKey
        ⟨0, "0xaa", "0xpk", 1, "", [], [], ""⟩).2
      ≠ (NewMock.saveRecoveredKey ⟨0, "0xaa", "0xpk", 1, "", [], [], ""⟩).2
    ∧ (((((NewMock.saveRecoveredKey ⟨0, "0xaa", "0xpk", 1, "", [], [], ""⟩).2).saveRecoveredKey
        ⟨0, "0xaa", "0xpk", 1, "", [], [], ""⟩).2).keys.filter
          (fun r => r.address == "0xaa" && r.chainID == 1)).length = 2 := by
  refine ⟨rfl, ?_, rfl⟩
  decide

/-- Scanner.checkPendingComponents (scanner source, part_004:653-670): fetches
the pending components and, for every component whose RValues contain the
given R value, only emits a log line; the solver hookup is an explicit TODO
in the source.  The call therefore changes nothing: no linear system is
built, no key or nonce is persisted, and no component is deleted. -/
def checkPendingComponents (m : MockDB) (rValue nonce : String) : MockDB :=
  (m.comps.filter (fun c => c.rValues.contains rValue)).foldl (fun acc _ => acc) m

theorem foldl_keep {α β : Type} (l : List α) (b : β) :
    l.foldl (fun acc _ => acc) b = b := by
  induction l generalizing b with
  | nil => rfl
  | cons x rest ih => exact ih b

/-- Claim C3 names behaviour the code does not have: when a new nonce is
recorded for an R value, checkPendingComponents leaves the database entirely
unchanged; in particular a pending component that contains that R value and
whose equation count has reached its unknown count is neither solved nor
deleted, and no recovered key is persisted. -/
theorem checkPendingComponents_noop
    (m : MockDB) (rValue nonce : String) (c : PendingComponent)
    (hc : c ∈ m.comps) (hr : c.rValues.contains rValue = true)
    (hsolv : c.unknowns ≤ c.equations) :
    checkPendingComponents m rValue nonce = m
    ∧ c ∈ (checkPendingComponents m rValue nonce).comps
    ∧ (checkPendingComponents m rValue nonce).keys = m.keys
    ∧ (checkPendingComponents m rValue nonce).nonces = m.nonces := by
  have hnoop : checkPendingComponents m rValue nonce = m := by
    unfold checkPendingComponents
    exact foldl_keep _ m
  rw [hnoop]
  exact ⟨rfl, hc, rfl, rfl⟩

/-- Witness for checkPendingComponents_noop: a solvable pending component
(equations = 2, unknowns = 2 after a nonce for its R value became known)
survives the pending-component re-evaluation untouched. -/
theorem checkPendingComponents_noop_witness :
    checkPendingComponents
        ⟨[], [], [], [⟨1, ["0xr"], ["0xt1", "0xt2"], ["0xa", "0xb"], [1, 1], 2, 2⟩], []⟩
        "0xr" "0xk"
      = ⟨[], [], [], [⟨1, ["0xr"], ["0xt1", "0xt2"], ["0xa", "0xb"], [1, 1], 2, 2⟩], []⟩
    ∧ (⟨1, ["0xr"], ["0xt1", "0xt2"], ["0xa", "0xb"], [1, 1], 2, 2⟩ : PendingComponent)
        ∈ (checkPendingComponents
            ⟨[], [], [], [⟨1, ["0xr"], ["0xt1", "0xt2"], ["0xa", "0xb"], [1, 1], 2, 2⟩], []⟩
            "0xr" "0xk").comps := by
  have h := checkPendingComponents_noop
    ⟨[], [], [], [⟨1, ["0xr"], ["0xt1", "0xt2"], ["0xa", "0xb"], [1, 1], 2, 2⟩], []⟩
    "0xr" "0xk" ⟨1, ["0xr"], ["0xt1", "0xt2"], ["0xa", "0xb"], [1, 1], 2, 2⟩
    (by decide) (by decide) (by decide)
  exact ⟨h.1, h.2.1⟩

/-!  Linear-system solver.  The Go implementation (NewLinearSystem,
AddVariable, AddEquation, CanSolve, Solve) is not part of the source tree:
only its tests (recovery_test.go and the unnamed test files) and callers
survive.  The definitions below are therefore modelled from the
specification, section 4.C. -/

/-- Modelled from the spec: the solver's error values Underdetermined,
Singular and NonInvertiblePivot (the Go implementation is missing from the
sources; only tests and callers reference it). -/
inductive SolveError where
  | Underdetermined
  | Singular
  | NonInvertiblePivot
deriving DecidableEq

/-- Modelled from the spec: a dense R x V system M * x = c over Z/nZ with
named variables (spec 4.C); the Go implementation is missing from the
sources. -/
structure LinearSystem where
  modulus : Nat
  varNames : List String
  rows : List (List Nat)
  consts : List Nat

/-- Modelled from the spec: NewLinearSystem(n). -/
def NewLinearSystem (n : Nat) : LinearSystem := ⟨n, [], [], []⟩

/-- Modelled from the spec: add_variable(name) returns the new index (O(1),
indices are assigned in insertion order). -/
def LinearSystem.AddVariable (ls : LinearSystem) (name : String) : LinearSystem × Nat :=
  ({ ls with varNames := ls.varNames ++ [name] }, ls.varNames.length)

def LinearSystem.NumVariables (ls : LinearSystem) : Nat := ls.varNames.length

def LinearSystem.NumEquations (ls : LinearSystem) : Nat := ls.rows.length

/-- Modelled from the spec: add_equation(coeffs, constant); missing indices
are zero and all entries are reduced mod n on entry. -/
def LinearSystem.AddEquation (ls : LinearSystem) (coeffs : List (Nat × Nat)) (c : Nat) :
    LinearSystem :=
  { ls with
    rows := ls.rows ++ [(List.range ls.varNames.length).map
      (fun j => ((coeffs.lookup j).getD 0) % ls.modulus)],
    consts := ls.consts ++ [c % ls.modulus] }

/-- Modelled from the spec: can_solve() returns equations >= variables. -/
def LinearSystem.CanSolve (ls : LinearSystem) : Bool :=
  decide (ls.NumVariables ≤ ls.NumEquations)

/-- Swap the entries at two indices. -/
def swapIdx {α : Type} (l : List α) (i j : Nat) (dflt : α) : List α :=
  (l.set i (l.getD j dflt)).set j (l.getD i dflt)

/-- Modelled from the spec: partial pivoting picks the smallest-indexed row
at or below the pivot row with a non-zero entry in the pivot column. -/
def pivotSearch (rows : List (List Nat)) (col : Nat) : Option Nat :=
  ((List.range rows.length).filter (fun i => decide (col ≤ i))).find?
    (fun i => decide (((rows.getD i []).getD col 0) ≠ 0))

/-- Eliminate the pivot column from one row below the pivot. -/
def elimStep (m : Nat) (col : Nat) (prow : List Nat) (pc : Nat)
    (acc : List (List Nat) × List Nat) (j : Nat) : List (List Nat) × List Nat :=
  let row := acc.1.getD j []
  let f := row.getD col 0
  let newRow := (row.zip prow).map (fun q => goMod ((q.1 : Int) - (f : Int) * q.2) m)
  let newC := goMod ((acc.2.getD j 0 : Int) - (f : Int) * pc) m
  (acc.1.set j newRow, acc.2.set j newC)

/-- Modelled from the spec: forward elimination with partial pivoting: for
each column find the first usable pivot row, swap it up, scale the pivot row
by the pivot's inverse and eliminate below. -/
def elimCols (m : Nat) : List Nat → List (List Nat) → List Nat →
    Except SolveError (List (List Nat) × List Nat)
  | [], rows, cst => .ok (rows, cst)
  | col :: rest, rows, cst =>
    match pivotSearch rows col with
    | none => .error .Singular
    | some i =>
      let rows1 := swapIdx rows i col []
      let cst1 := swapIdx cst i col 0
      match modInverse ((rows1.getD col []).getD col 0) m with
      | none => .error .NonInvertiblePivot
      | some pinv =>
        let prow := (rows1.getD col []).map (fun x => (x * pinv) % m)
        let pc := (cst1.getD col 0 * pinv) % m
        let below := (List.range rows1.length).filter (fun j => decide (col < j))
        let res := below.foldl (elimStep m col prow pc) (rows1.set col prow, cst1.set col pc)
        elimCols m rest res.1 res.2

/-- Modelled from the spec: back substitution over the triangularized rows. -/
def backSub (m : Nat) (rows : List (List Nat)) (cst : List Nat) :
    List Nat → List (Nat × Nat) → List (Nat × Nat)
  | [], acc => acc
  | i :: rest, acc =>
    let row := rows.getD i []
    let s := acc.foldl (fun t q => (t + (row.getD q.1 0) * q.2) % m) 0
    backSub m rows cst rest ((i, goMod ((cst.getD i 0 : Int) - (s : Int)) m) :: acc)

/-- Modelled from the spec: solve() fails with Underdetermined when R < V,
otherwise runs forward elimination (Singular / NonInvertiblePivot are its
failures) and back substitution, returning the name-to-scalar assignment. -/
def LinearSystem.Solve (ls : LinearSystem) :
    Except SolveError (List (String × Nat)) :=
  if ls.rows.length < ls.varNames.length then .error .Underdetermined
  else
    match elimCols ls.modulus (List.range ls.varNames.length) ls.rows ls.consts with
    | .error e => .error e
    | .ok res =>
      .ok ((backSub ls.modulus res.1 res.2 (List.range ls.varNames.length).reverse []).map
        (fun q => (ls.varNames.getD q.1 "", q.2)))

/-- A system built by the test-visible operation sequence: AddVariable for
each name, then AddEquation for each (coefficients, constant) pair. -/
def buildSystem (m : Nat) (names : List String) (eqs : List (List (Nat × Nat) × Nat)) :
    LinearSystem :=
  eqs.foldl (fun ls e => ls.AddEquation e.1 e.2)
    (names.foldl (fun ls nm => (ls.AddVariable nm).1) (NewLinearSystem m))

theorem foldAddVariable (names : List String) : ∀ ls : LinearSystem,
    (names.foldl (fun ls nm => (ls.AddVariable nm).1) ls).varNames = ls.varNames ++ names
    ∧ (names.foldl (fun ls nm => (ls.AddVariable nm).1) ls).rows = ls.rows
    ∧ (names.foldl (fun ls nm => (ls.AddVariable nm).1) ls).consts = ls.consts := by
  induction names with
  | nil => intro ls; simp
  | cons nm rest ih =>
    intro ls
    have h := ih (ls.AddVariable nm).1
    simpa [LinearSystem.AddVariable] using h

theorem foldAddEquation (eqs : List (List (Nat × Nat) × Nat)) : ∀ ls : LinearSystem,
    (eqs.foldl (fun ls e => ls.AddEquation e.1 e.2) ls).varNames = ls.varNames
    ∧ (eqs.foldl (fun ls e => ls.AddEquation e.1 e.2) ls).rows.length
        = ls.rows.length + eqs.length := by
  induction eqs with
  | nil => intro ls; simp
  | cons e rest ih =>
    intro ls
    have h := ih (ls.AddEquation e.1 e.2)
    constructor
    · rw [List.foldl_cons, h.1]; rfl
    · rw [List.foldl_cons, h.2]
      simp [LinearSystem.AddEquation]
      omega

/-- Claim C4, against the spec-modelled solver: for a system built through
the public operations, the variable and equation counts are the numbers of
AddVariable and AddEquation calls; solve() on a system with fewer equations
than variables fails with Underdetermined (producing no assignments); and
can_solve() returns true exactly when equations >= variables. -/
theorem solve_underdetermined (m : Nat) (names : List String)
    (eqs : List (List (Nat × Nat) × Nat)) :
    ((buildSystem m names eqs).NumVariables = names.length
      ∧ (buildSystem m names eqs).NumEquations = eqs.length)
    ∧ (eqs.length < names.length →
        (buildSystem m names eqs).Solve = .error .Underdetermined)
    ∧ ((buildSystem m names eqs).CanSolve = true ↔ names.length ≤ eqs.length) := by
  have hv := foldAddVariable names (NewLinearSystem m)
  have he := foldAddEquation eqs (names.foldl (fun ls nm => (ls.AddVariable nm).1)
    (NewLinearSystem m))
  have hnames : (buildSystem m names eqs).varNames = names := by
    rw [buildSystem, he.1, hv.1]
    simp [NewLinearSystem]
  have hrows : (buildSystem m names eqs).rows.length = eqs.length := by
    rw [buildSystem, he.2, hv.2.1]
    simp [NewLinearSystem]
  refine ⟨⟨?_, ?_⟩, ?_, ?_⟩
  · rw [LinearSystem.NumVariables, hnames]
  · exact hrows
  · intro hlt
    rw [LinearSystem.Solve, if_pos (by rw [hrows, hnames]; exact hlt)]
  · rw [LinearSystem.CanSolve, LinearSystem.NumVariables, LinearSystem.NumEquations,
      hnames, hrows]
    simp

/-- Witness for solve_underdetermined, mirroring
TestLinearSystemUnderdetermined: three variables x, y, z over Z/97 with only
two equations. -/
theorem solve_underdetermined_witness :
    (buildSystem 97 ["x", "y", "z"]
        [([(0, 1), (1, 1)], 5), ([(1, 1), (2, 1)], 7)]).Solve
      = .error .Underdetermined
    ∧ (buildSystem 97 ["x", "y", "z"]
        [([(0, 1), (1, 1)], 5), ([(1, 1), (2, 1)], 7)]).CanSolve = false := by
  have h := solve_underdetermined 97 ["x", "y", "z"]
    [([(0, 1), (1, 1)], 5), ([(1, 1), (2, 1)], 7)]
  refine ⟨h.2.1 (by decide), ?_⟩
  have h2 := h.2.2
  simp only [show ¬ (["x", "y", "z"].length
    ≤ ([([(0, 1), (1, 1)], 5), ([(1, 1), (2, 1)], 7)] : List (List (Nat × Nat) × Nat)).length)
    from by decide] at h2
  simpa using h2

/-!  Block filtering (Scanner.scanBlock, part_004:364-422) and the system
address set (config.SystemAddresses, config.go:100-106). -/

/-- RPCTransaction (part_004:25-31). -/
structure RPCTransaction where
  Hash : String
  From : String
  R : String
  S : String
  V : String
deriving DecidableEq

/-- config.SystemAddresses (config.go:100-106), already lower-case. -/
def SystemAddresses : List String :=
  ["0xdeaddeaddeaddeaddeaddeaddeaddeaddead0001",
   "0x00000000000000000000000000000000000a4b05",
   "0x977f82a600a1414e583f7f13623f1ac5d58b1c0b"]

/-- The filtering loop of Scanner.scanBlock (part_004:378-393): drop
transactions with R equal to "" or "0x0" or an empty sender, drop
transactions whose lower-cased sender is a system address, and lower-case
every retained field. -/
def buildTxInputs (sysAddrs : List String) (chainID : Nat)
    (txs : List RPCTransaction) : List TxInput :=
  txs.filterMap fun tx =>
    if tx.R = "" ∨ tx.R = "0x0" ∨ tx.From = "" then none
    else if strLower tx.From ∈ sysAddrs then none
    else some ⟨strLower tx.R, strLower tx.Hash, chainID, strLower tx.From⟩

theorem firstOccs_subset : ∀ (txs : List TxInput) (seen : List String) (x : TxInput),
    x ∈ firstOccsFrom seen txs → x ∈ txs := by
  intro txs
  induction txs with
  | nil => intro seen x hx; simpa [firstOccsFrom] using hx
  | cons tx rest ih =>
    intro seen x hx
    simp only [firstOccsFrom] at hx
    by_cases hmem : tx.rValue ∈ seen
    · rw [if_pos hmem] at hx
      exact List.mem_cons_of_mem _ (ih seen x hx)
    · rw [if_neg hmem] at hx
      rcases List.mem_cons.mp hx with hx | hx
      · exact hx ▸ List.mem_cons_self _ _
      · exact List.mem_cons_of_mem _ (ih _ x hx)

theorem colOf_fields {tbl : RTable} {tx : TxInput} {c : CollisionResult}
    (h : colOf tbl tx = some c) : c.rValue = tx.rValue ∧ c.txHash = tx.txHash := by
  unfold colOf at h
  cases hl : lookupR tbl tx.rValue with
  | none => rw [hl] at h; exact absurd h (by simp)
  | some w =>
    rw [hl] at h
    have h2 : (if eqFold w.txHash tx.txHash then none
        else some (⟨tx.rValue, tx.txHash, tx.chainID, tx.address, w⟩ : CollisionResult))
        = some c := h
    by_cases hf : eqFold w.txHash tx.txHash
    · rw [if_pos hf] at h2; exact absurd h2 (by simp)
    · rw [if_neg hf] at h2
      rw [← Option.some_inj.mp h2]
      exact ⟨rfl, rfl⟩

theorem buildTxInputs_mem (sysAddrs : List String) (chainID : Nat)
    (txs : List RPCTransaction) (inp : TxInput) :
    inp ∈ buildTxInputs sysAddrs chainID txs
      ↔ ∃ tx ∈ txs, ¬(tx.R = "" ∨ tx.R = "0x0" ∨ tx.From = "")
          ∧ strLower tx.From ∉ sysAddrs
          ∧ inp = ⟨strLower tx.R, strLower tx.Hash, chainID, strLower tx.From⟩ := by
  rw [buildTxInputs, List.mem_filterMap]
  constructor
  · rintro ⟨tx, htx, hf⟩
    by_cases h1 : tx.R = "" ∨ tx.R = "0x0" ∨ tx.From = ""
    · rw [if_pos h1] at hf; exact absurd hf (by simp)
    · rw [if_neg h1] at hf
      by_cases h2 : strLower tx.From ∈ sysAddrs
      · rw [if_pos h2] at hf; exact absurd hf (by simp)
      · rw [if_neg h2] at hf
        exact ⟨tx, htx, h1, h2, (Option.some_inj.mp hf).symm⟩
  · rintro ⟨tx, htx, h1, h2, heq⟩
    refine ⟨tx, htx, ?_⟩
    rw [if_neg h1, if_neg h2, heq]

/-- Claim C8: scanBlock's batch construction excludes every transaction
whose R value is "0x0" or "" (or whose sender is empty) and every
transaction whose lower-cased sender is in the system-address set: the
batch handed to BatchCheckAndInsertRValues contains exactly the entries of
the retained transactions (first conjunct), and consequently every
collision row and every new R-index witness produced by the batch insert
stems from a retained transaction, never from an excluded one (second and
third conjuncts). -/
theorem scanBlock_filters (sysAddrs : List String) (chainID : Nat)
    (txs : List RPCTransaction) (m : MockDB) (c : CollisionResult) (r : String) (w : TxRef) :
    (∀ inp : TxInput, inp ∈ buildTxInputs sysAddrs chainID txs
      ↔ ∃ tx ∈ txs, ¬(tx.R = "" ∨ tx.R = "0x0" ∨ tx.From = "")
          ∧ strLower tx.From ∉ sysAddrs
          ∧ inp = ⟨strLower tx.R, strLower tx.Hash, chainID, strLower tx.From⟩)
    ∧ (c ∈ (m.batchCheckAndInsertRValues (buildTxInputs sysAddrs chainID txs)).2 →
        ∃ tx ∈ txs, ¬(tx.R = "" ∨ tx.R = "0x0" ∨ tx.From = "")
          ∧ strLower tx.From ∉ sysAddrs
          ∧ c.rValue = strLower tx.R ∧ c.txHash = strLower tx.Hash)
    ∧ (lookupR m.rValues r = none →
        lookupR (m.batchCheckAndInsertRValues
          (buildTxInputs sysAddrs chainID txs)).1.rValues r = some w →
        ∃ tx ∈ txs, ¬(tx.R = "" ∨ tx.R = "0x0" ∨ tx.From = "")
          ∧ strLower tx.From ∉ sysAddrs
          ∧ r = strLower tx.R ∧ w = ⟨strLower tx.Hash, chainID⟩) := by
  refine ⟨buildTxInputs_mem sysAddrs chainID txs, ?_, ?_⟩
  · intro hc
    have hcols : (m.batchCheckAndInsertRValues (buildTxInputs sysAddrs chainID txs)).2
        = (firstOccsFrom [] (buildTxInputs sysAddrs chainID txs)).filterMap
            (colOf m.rValues) := by
      show (batchAux m.rValues [] [] (buildTxInputs sysAddrs chainID txs)).2 = _
      have h := batchAux_cols (buildTxInputs sysAddrs chainID txs) m.rValues [] [] []
        (by simp)
      simpa using h
    rw [hcols, List.mem_filterMap] at hc
    obtain ⟨inp, hinp, hcol⟩ := hc
    have hinp2 : inp ∈ buildTxInputs sysAddrs chainID txs := firstOccs_subset _ [] inp hinp
    obtain ⟨tx, htx, h1, h2, heq⟩ := (buildTxInputs_mem sysAddrs chainID txs inp).mp hinp2
    obtain ⟨hcr, hch⟩ := colOf_fields hcol
    exact ⟨tx, htx, h1, h2, by rw [hcr, heq], by rw [hch, heq]⟩
  · intro hnone hsome
    have hl : lookupR (m.batchCheckAndInsertRValues
        (buildTxInputs sysAddrs chainID txs)).1.rValues r
        = orFirst (lookupR m.rValues r) (buildTxInputs sysAddrs chainID txs) r := by
      show lookupR (batchAux m.rValues [] [] (buildTxInputs sysAddrs chainID txs)).1 r = _
      exact batchAux_lookup (buildTxInputs sysAddrs chainID txs) m.rValues [] [] r (by simp)
    rw [hl, hnone] at hsome
    simp only [orFirst] at hsome
    cases hf : (buildTxInputs sysAddrs chainID txs).find?
        (fun t : TxInput => t.rValue == r) with
    | none => rw [hf] at hsome; exact absurd hsome (by simp)
    | some inp =>
      rw [hf] at hsome
      have hinp : inp ∈ buildTxInputs sysAddrs chainID txs := List.mem_of_find?_eq_some hf
      have hpred := List.find?_some hf
      obtain ⟨tx, htx, h1, h2, heq⟩ := (buildTxInputs_mem sysAddrs chainID txs inp).mp hinp
      have hr : inp.rValue = r := by simpa using hpred
      have hw : w = ⟨inp.txHash, inp.chainID⟩ := by
        simpa using (Option.some_inj.mp hsome).symm
      exact ⟨tx, htx, h1, h2, by rw [← hr, heq], by rw [hw, heq]⟩

/-- Witness for scanBlock_filters: a block containing a system-address
deposit, a transaction with R = "0x0", one with empty R, and one ordinary
transaction produces a batch holding only the ordinary transaction. -/
theorem scanBlock_filters_witness :
    buildTxInputs SystemAddresses 10
        [⟨"0xT1", "0xdeadDEADdeadDEADdeadDEADdeadDEADdead0001", "0xAB", "0xS", "0x1b"⟩,
          ⟨"0xT2", "0xUser1", "0x0", "0xS", "0x1b"⟩,
          ⟨"0xT3", "0xUser2", "", "0xS", "0x1b"⟩,
          ⟨"0xT4", "0xUser3", "0xCD", "0xS", "0x1b"⟩]
      = [⟨"0xcd", "0xt4", 10, "0xuser3"⟩]
    ∧ (⟨"0xcd", "0xt4", 10, "0xuser3"⟩ : TxInput) ∈ buildTxInputs SystemAddresses 10
        [⟨"0xT1", "0xdeadDEADdeadDEADdeadDEADdeadDEADdead0001", "0xAB", "0xS", "0x1b"⟩,
          ⟨"0xT2", "0xUser1", "0x0", "0xS", "0x1b"⟩,
          ⟨"0xT3", "0xUser2", "", "0xS", "0x1b"⟩,
          ⟨"0xT4", "0xUser3", "0xCD", "0xS", "0x1b"⟩] := by
  constructor
  · rfl
  · exact ((scanBlock_filters SystemAddresses 10 _ NewMock
      ⟨"", "", 0, "", ⟨"", 0⟩⟩ "" ⟨"", 0⟩).1 _).mpr
      ⟨⟨"0xT4", "0xUser3", "0xCD", "0xS", "0x1b"⟩, by decide, by decide, by decide, by decide⟩

/-!  Transient-error classification (retry.IsRetryable, part_014:29-60) and
private-key verification (recovery.go:139-152). -/

/-- The pattern list of retry.IsRetryable (part_014:37-51), in source
order. -/
def retryablePatterns : List String :=
  ["timeout", "connection refused", "connection reset", "eof",
   "temporary failure", "too many requests", "rate limit", "429",
   "503", "502", "504", "busy", "unavailable"]

/-- retry.IsRetryable: false for a nil error, else true iff the lower-cased
message contains one of the retryable patterns.  Errors are modelled as
Option String (none is Go nil, some msg an error whose Error() is msg). -/
def isRetryable : Option String → Bool
  | none => false
  | some msg => retryablePatterns.any (fun p => strContains (strLower msg) p)

/-- The eleven substrings enumerated by the claim (and the spec, section
4.G), for comparison with the implementation. -/
def claimedRetryablePatterns : List String :=
  ["timeout", "rate limit", "429", "502", "503", "504", "connection reset",
   "connection refused", "eof", "busy", "unavailable"]

/-- The claim's classification predicate, built from its own substring
list. -/
def claimedRetryable : Option String → Bool
  | none => false
  | some msg => claimedRetryablePatterns.any (fun p => strContains (strLower msg) p)

/-- Counterexample to claim C9 as frozen: the messages "temporary failure"
and "too many requests" contain none of the claim's eleven substrings, yet
IsRetryable classifies both as retryable. -/
theorem isRetryable_counterexample :
    isRetryable (some "temporary failure") = true
    ∧ claimedRetryable (some "temporary failure") = false
    ∧ isRetryable (some "too many requests") = true
    ∧ claimedRetryable (some "too many requests") = false := by
  exact ⟨rfl, rfl, rfl, rfl⟩

/-- Claim C9, amended: an error is classified as retryable iff its
lower-cased message contains one of the claim's eleven substrings or one of
the two further substrings "temporary failure" and "too many requests"
present in the source's pattern list; a nil error is not retryable. -/
theorem isRetryable_characterization (msg : String) :
    isRetryable none = false
    ∧ isRetryable (some msg)
      = (claimedRetryable (some msg)
          || strContains (strLower msg) "temporary failure"
          || strContains (strLower msg) "too many requests") := by
  refine ⟨rfl, ?_⟩
  simp only [isRetryable, claimedRetryable, retryablePatterns, claimedRetryablePatterns,
    List.any_cons, List.any_nil]
  rw [Bool.eq_iff_iff]
  simp only [Bool.or_eq_true]
  tauto

/-- hex.DecodeString with the error surfaced: none on odd length or any
non-hex character, otherwise the decoded bytes. -/
def hexBytesStrict : List Char → Option (List Nat)
  | [] => some []
  | [_] => none
  | c1 :: c2 :: rest =>
    match hexDigitVal c1, hexDigitVal c2 with
    | some a, some b => (hexBytesStrict rest).map (fun bs => (16 * a + b) :: bs)
    | _, _ => none

/-- Big-endian byte interpretation (big.Int.SetBytes). -/
def bytesToNat (bs : List Nat) : Nat := bs.foldl (fun acc b => acc * 256 + b) 0

/-- VerifyPrivateKey (recovery.go:139-152), parametrized by the external
go-ethereum address derivation (addrOf d stands for
crypto.PubkeyToAddress(crypto.ToECDSA(d).PublicKey).Hex()): trim 0x, hex
decode (any error gives false), crypto.ToECDSA validity (exactly 32 bytes
whose value d satisfies 0 < d < n), then strings.EqualFold against the
expected address. -/
def verifyPrivateKey (addrOf : Nat → String) (privKeyHex expectedAddr : String) : Bool :=
  match hexBytesStrict (strTrim0x privKeyHex).data with
  | none => false
  | some bytes =>
    if bytes.length ≠ 32 then false
    else if bytesToNat bytes = 0 ∨ secpN ≤ bytesToNat bytes then false
    else eqFold (addrOf (bytesToNat bytes)) expectedAddr

/-- Claim C10: VerifyPrivateKey is total (a Bool for every pair of input
strings, never a failure) and returns true exactly when the private-key
string hex-decodes to 32 bytes whose value is a valid secp256k1 scalar
(0 < d < n) and the derived address equals the expected address
case-insensitively — so for malformed hex, wrong length, zero, or
an out-of-range scalar it returns false. -/
theorem verifyPrivateKey_characterization (addrOf : Nat → String)
    (privKeyHex expectedAddr : String) :
    verifyPrivateKey addrOf privKeyHex expectedAddr = true
      ↔ ∃ bytes, hexBytesStrict (strTrim0x privKeyHex).data = some bytes
          ∧ bytes.length = 32
          ∧ 0 < bytesToNat bytes ∧ bytesToNat bytes < secpN
          ∧ eqFold (addrOf (bytesToNat bytes)) expectedAddr = true := by
  unfold verifyPrivateKey
  cases hb : hexBytesStrict (strTrim0x privKeyHex).data with
  | none => simp
  | some bytes =>
    have hred : (match some bytes with
        | none => false
        | some bytes =>
          if bytes.length ≠ 32 then false
          else if bytesToNat bytes = 0 ∨ secpN ≤ bytesToNat bytes then false
          else eqFold (addrOf (bytesToNat bytes)) expectedAddr)
        = (if bytes.length ≠ 32 then false
          else if bytesToNat bytes = 0 ∨ secpN ≤ bytesToNat bytes then false
          else eqFold (addrOf (bytesToNat bytes)) expectedAddr) := rfl
    rw [hred]
    constructor
    · intro h
      by_cases h1 : bytes.length ≠ 32
      · rw [if_pos h1] at h; exact absurd h (by simp)
      · rw [if_neg h1] at h
        by_cases h2 : bytesToNat bytes = 0 ∨ secpN ≤ bytesToNat bytes
        · rw [if_pos h2] at h; exact absurd h (by simp)
        · rw [if_neg h2] at h
          exact ⟨bytes, rfl, by omega, by omega, by omega, h⟩
    · rintro ⟨bytes', hbe, hlen, hpos, hlt, hfold⟩
      have hbb : bytes = bytes' := Option.some_inj.mp hbe
      subst hbb
      rw [if_neg (by omega), if_neg (by omega)]
      exact hfold

end EcdsaScanner